import Mathlib

/-! near-outlayer: FastFS chunked upload and keystore secret encryption.

Shallow embedding of the Python sources
`scripts/upload_wasm_fastfs.py`,
`keystore-worker/scripts/encrypt_secrets.py` and
`keystore-worker/scripts/test_encryption.py`,
with theorems settling the frozen claims about the spec.

Bytes are modelled as `Nat` (values < 256 where produced by the code),
Python byte strings as `List Nat`, Python text strings as `String`
(processed as `List Char`).
-/

namespace NearOutlayer

/-! ## Little-endian packing (`struct.pack`) -/

/-- `struct.pack('<B', x)`: one byte.  (The script only uses `x = 1`;
`struct.pack` raises for `x ≥ 256`, the model truncates.) -/
def packU8 (x : Nat) : List Nat := [x % 256]

/-- `struct.pack('<I', x)`: four bytes, little endian.  (`struct.pack`
raises for `x ≥ 2^32`; the model truncates, which agrees with the source
on every value the script can produce.) -/
def le32 (x : Nat) : List Nat :=
  [x % 256, x / 256 % 256, x / 65536 % 256, x / 16777216 % 256]

/-- The unsigned value denoted by a little-endian byte list. -/
def leValue : List Nat → Nat
  | [] => 0
  | b :: rest => b + 256 * leValue rest

/-! ## UTF-8 (Python `str.encode('utf-8')` / `bytes.decode('utf-8')`) -/

/-- UTF-8 encoding of one Unicode code point (as produced by Python's
`str.encode('utf-8')` on valid scalar values). -/
def utf8EncodeChar (c : Nat) : List Nat :=
  if c < 0x80 then [c]
  else if c < 0x800 then [0xC0 + c / 64, 0x80 + c % 64]
  else if c < 0x10000 then
    [0xE0 + c / 4096, 0x80 + c / 64 % 64, 0x80 + c % 64]
  else
    [0xF0 + c / 262144, 0x80 + c / 4096 % 64, 0x80 + c / 64 % 64, 0x80 + c % 64]

/-- UTF-8 bytes of a Lean string: Python `s.encode('utf-8')`. -/
def strBytes (s : String) : List Nat :=
  (s.data.map (fun c => utf8EncodeChar c.toNat)).flatten

/-! ## Borsh helpers and the chunk frame (`upload_wasm_fastfs.py`) -/

/-- `borsh_string(s)`: u32 length of the UTF-8 encoding + the bytes. -/
def borsh_string (s : String) : List Nat :=
  le32 (strBytes s).length ++ strBytes s

/-- `borsh_bytes(b)`: u32 length + the raw bytes. -/
def borsh_bytes (b : List Nat) : List Nat :=
  le32 b.length ++ b

/-- `CHUNK_SIZE = 1 << 20`. -/
def CHUNK_SIZE : Nat := 1 <<< 20

/-- `create_fastfs_partial_payload`: the Borsh-serialized
`FastfsData::Partial` chunk frame. -/
def create_fastfs_partial_payload (relative_path : String) (offset full_size : Nat)
    (content_chunk : List Nat) (mime_type : String) (nonce : Nat) : List Nat :=
  packU8 1 ++
  borsh_string relative_path ++
  le32 offset ++
  le32 full_size ++
  borsh_string mime_type ++
  borsh_bytes content_chunk ++
  le32 nonce

/-- Python `range(start, stop, step)` for a positive step (the script only
uses `range(0, full_size, CHUNK_SIZE)`; `range` with step 0 raises, the
model returns `[]`). -/
def pyRange (start stop step : Nat) : List Nat :=
  if step = 0 then []
  else (List.range ((stop - start + step - 1) / step)).map (fun i => start + i * step)

/-- Python slice `l[a:b]` for non-negative bounds (clamped to the length). -/
def pySlice (l : List Nat) (a b : Nat) : List Nat :=
  (l.take b).drop a

/-- The chunk plan of `create_fastfs_payloads`: the offsets visited by
`range(0, full_size, CHUNK_SIZE)` paired with the slices
`content[offset:min(offset + CHUNK_SIZE, full_size)]`. -/
def chunkPlan (content : List Nat) : List (Nat × List Nat) :=
  (pyRange 0 content.length CHUNK_SIZE).map
    (fun offset => (offset, pySlice content offset (min (offset + CHUNK_SIZE) content.length)))

/-- The fixed offset subtracted from `time.time()` to form the nonce. -/
def NONCE_EPOCH : Nat := 1769376240

/-- `create_fastfs_payloads`: one Borsh frame per chunk, all sharing the
session nonce `int(time.time()) - 1769376240` (the wall clock is passed in
as `now`; the script runs with `now ≥ NONCE_EPOCH`). -/
def create_fastfs_payloads (relative_path mime_type : String) (content : List Nat)
    (now : Nat) : List (List Nat) :=
  (chunkPlan content).map
    (fun oc => create_fastfs_partial_payload relative_path oc.1 content.length oc.2
      mime_type (now - NONCE_EPOCH))

/-! ## SHA-256 (`hashlib.sha256`) -/

/-- Right rotation of a 32-bit word (arithmetic form). -/
def rotr (n x : Nat) : Nat :=
  (x / 2 ^ n + x % 2 ^ n * 2 ^ (32 - n)) % 2 ^ 32

/-- The 64 SHA-256 round constants of FIPS 180-4 (`0x428a2f98 …
0xc67178f2`), written in decimal. -/
def sha256K : List Nat :=
  [1116352408, 1899447441, 3049323471, 3921009573, 961987163, 1508970993,
   2453635748, 2870763221, 3624381080, 310598401, 607225278, 1426881987,
   1925078388, 2162078206, 2614888103, 3248222580, 3835390401, 4022224774,
   264347078, 604807628, 770255983, 1249150122, 1555081692, 1996064986,
   2554220882, 2821834349, 2952996808, 3210313671, 3336571891, 3584528711,
   113926993, 338241895, 666307205, 773529912, 1294757372, 1396182291,
   1695183700, 1986661051, 2177026350, 2456956037, 2730485921, 2820302411,
   3259730800, 3345764771, 3516065817, 3600352804, 4094571909, 275423344,
   430227734, 506948616, 659060556, 883997877, 958139571, 1322822218,
   1537002063, 1747873779, 1955562222, 2024104815, 2227730452, 2361852424,
   2428436474, 2756734187, 3204031479, 3329325298]

/-- The SHA-256 initial hash state of FIPS 180-4 (`0x6a09e667 …
0x5be0cd19`), written in decimal. -/
def sha256H0 : List Nat :=
  [1779033703, 3144134277, 1013904242, 2773480762, 1359893119, 2600822924,
   528734635, 1541459225]

/-- Big-endian 8-byte encoding of the bit length. -/
def be64 (x : Nat) : List Nat :=
  [x / 2 ^ 56 % 256, x / 2 ^ 48 % 256, x / 2 ^ 40 % 256, x / 2 ^ 32 % 256,
   x / 2 ^ 24 % 256, x / 2 ^ 16 % 256, x / 2 ^ 8 % 256, x % 256]

/-- SHA-256 message padding: `0x80`, zeros to 56 mod 64, 8-byte bit length. -/
def sha256Pad (msg : List Nat) : List Nat :=
  msg ++ [0x80] ++ List.replicate ((119 - msg.length % 64) % 64) 0 ++ be64 (8 * msg.length)

/-- Split a byte list into 64-byte blocks. -/
def toBlocks : List Nat → List (List Nat)
  | [] => []
  | b :: rest => ((b :: rest).take 64) :: toBlocks ((b :: rest).drop 64)
termination_by l => l.length
decreasing_by simp [List.length_drop]; omega

/-- Big-endian 32-bit words of a block. -/
def toWordsBE : List Nat → List Nat
  | b0 :: b1 :: b2 :: b3 :: rest =>
    (((b0 * 256 + b1) * 256 + b2) * 256 + b3) :: toWordsBE rest
  | _ => []

/-- One step of the SHA-256 message-schedule extension. -/
def sha256ExtendStep (w : List Nat) : List Nat :=
  w ++ [(((rotr 17 (w.getD (w.length - 2) 0) ^^^ rotr 19 (w.getD (w.length - 2) 0) ^^^
           w.getD (w.length - 2) 0 / 2 ^ 10) +
          w.getD (w.length - 7) 0 +
          (rotr 7 (w.getD (w.length - 15) 0) ^^^ rotr 18 (w.getD (w.length - 15) 0) ^^^
           w.getD (w.length - 15) 0 / 2 ^ 3) +
          w.getD (w.length - 16) 0) % 2 ^ 32)]

/-- Extend the 16 block words to the 64 schedule words. -/
def sha256Schedule (w16 : List Nat) : List Nat :=
  (List.range 48).foldl (fun w _ => sha256ExtendStep w) w16

/-- One SHA-256 compression round on the 8-word working state. -/
def sha256Round (st : Nat × Nat × Nat × Nat × Nat × Nat × Nat × Nat) (kw : Nat × Nat) :
    Nat × Nat × Nat × Nat × Nat × Nat × Nat × Nat :=
  match st, kw with
  | (a, b, c, d, e, f, g, h), (k, w) =>
    let S1 := rotr 6 e ^^^ rotr 11 e ^^^ rotr 25 e
    let ch := (e &&& f) ^^^ ((0xffffffff ^^^ e) &&& g)
    let temp1 := (h + S1 + ch + k + w) % 2 ^ 32
    let S0 := rotr 2 a ^^^ rotr 13 a ^^^ rotr 22 a
    let maj := (a &&& b) ^^^ (a &&& c) ^^^ (b &&& c)
    let temp2 := (S0 + maj) % 2 ^ 32
    ((temp1 + temp2) % 2 ^ 32, a, b, c, (d + temp1) % 2 ^ 32, e, f, g)

/-- Compress one 64-byte block into the hash state. -/
def sha256Compress (H : List Nat) (block : List Nat) : List Nat :=
  let w := sha256Schedule (toWordsBE block)
  let st := (sha256K.zip w).foldl sha256Round
    (H.getD 0 0, H.getD 1 0, H.getD 2 0, H.getD 3 0,
     H.getD 4 0, H.getD 5 0, H.getD 6 0, H.getD 7 0)
  match st with
  | (a, b, c, d, e, f, g, h) =>
    List.zipWith (fun x y => (x + y) % 2 ^ 32) H [a, b, c, d, e, f, g, h]

/-- SHA-256 final state words of a byte message. -/
def sha256Words (msg : List Nat) : List Nat :=
  (toBlocks (sha256Pad msg)).foldl sha256Compress sha256H0

/-- Big-endian bytes of a 32-bit word. -/
def wordBytesBE (x : Nat) : List Nat :=
  [x / 2 ^ 24 % 256, x / 2 ^ 16 % 256, x / 2 ^ 8 % 256, x % 256]

/-- SHA-256 digest (32 bytes) of a byte message: `hashlib.sha256(msg).digest()`. -/
def sha256 (msg : List Nat) : List Nat :=
  ((sha256Words msg).map wordBytesBE).flatten

/-- The lowercase hexadecimal digit characters. -/
def hexDigits : List Char := "0123456789abcdef".data

/-- Two lowercase hex characters of one byte. -/
def hexByte (b : Nat) : List Char :=
  [hexDigits.getD (b / 16 % 16) '0', hexDigits.getD (b % 16) '0']

/-- `hashlib.sha256(msg).hexdigest()`: lowercase hex digest string. -/
def sha256hex (msg : List Nat) : String :=
  String.mk (((sha256 msg).map hexByte).flatten)

/-- `relative_path = f"{wasm_hash}.wasm"` where `wasm_hash` is the hex digest. -/
def relative_path (content : List Nat) : String :=
  sha256hex content ++ ".wasm"

/-- The reported URL `f"https://{sender_account}.fastfs.io/{receiver}/{relative_path}"`. -/
def fastfs_url (sender_account receiver rel : String) : String :=
  "https://" ++ sender_account ++ ".fastfs.io/" ++ receiver ++ "/" ++ rel

/-! ## UTF-8 decoding (Python `bytes.decode('utf-8')`, strict) -/

/-- Continuation of a 2-byte UTF-8 sequence with lead byte `b0`. -/
def utf8Tail1 (b0 : Nat) : List Nat → Option (Nat × List Nat)
  | b1 :: rest2 =>
    if 0x80 ≤ b1 ∧ b1 < 0xC0 then
      some ((b0 - 0xC0) * 64 + (b1 - 0x80), rest2)
    else none
  | [] => none

/-- Continuation of a 3-byte UTF-8 sequence with lead byte `b0`,
rejecting overlong forms and surrogates. -/
def utf8Tail2 (b0 : Nat) : List Nat → Option (Nat × List Nat)
  | b1 :: b2 :: rest3 =>
    if (0x80 ≤ b1 ∧ b1 < 0xC0) ∧ (0x80 ≤ b2 ∧ b2 < 0xC0) then
      if 0x800 ≤ (b0 - 0xE0) * 4096 + (b1 - 0x80) * 64 + (b2 - 0x80) ∧
         ¬ (0xD800 ≤ (b0 - 0xE0) * 4096 + (b1 - 0x80) * 64 + (b2 - 0x80) ∧
            (b0 - 0xE0) * 4096 + (b1 - 0x80) * 64 + (b2 - 0x80) < 0xE000) then
        some ((b0 - 0xE0) * 4096 + (b1 - 0x80) * 64 + (b2 - 0x80), rest3)
      else none
    else none
  | _ => none

/-- Continuation of a 4-byte UTF-8 sequence with lead byte `b0`,
rejecting overlong forms and values beyond U+10FFFF. -/
def utf8Tail3 (b0 : Nat) : List Nat → Option (Nat × List Nat)
  | b1 :: b2 :: b3 :: rest4 =>
    if (0x80 ≤ b1 ∧ b1 < 0xC0) ∧ (0x80 ≤ b2 ∧ b2 < 0xC0) ∧ (0x80 ≤ b3 ∧ b3 < 0xC0) then
      if 0x10000 ≤ (b0 - 0xF0) * 262144 + (b1 - 0x80) * 4096 + (b2 - 0x80) * 64 + (b3 - 0x80) ∧
         (b0 - 0xF0) * 262144 + (b1 - 0x80) * 4096 + (b2 - 0x80) * 64 + (b3 - 0x80) < 0x110000 then
        some ((b0 - 0xF0) * 262144 + (b1 - 0x80) * 4096 + (b2 - 0x80) * 64 + (b3 - 0x80), rest4)
      else none
    else none
  | _ => none

/-- Decode the first Unicode scalar of a strict UTF-8 byte stream,
returning it with the remaining bytes; `none` on any ill-formed prefix
(stray continuation byte, overlong form, surrogate, truncation). -/
def utf8DecodeOne : List Nat → Option (Nat × List Nat)
  | [] => none
  | b0 :: rest =>
    if b0 < 0x80 then some (b0, rest)
    else if b0 < 0xC2 then none
    else if b0 < 0xE0 then utf8Tail1 b0 rest
    else if b0 < 0xF0 then utf8Tail2 b0 rest
    else if b0 < 0xF5 then utf8Tail3 b0 rest
    else none

/-- Strict UTF-8 decoding loop; `fuel` starts at the byte count and only
drives structural recursion (each scalar consumes at least one byte). -/
def utf8DecodeFuel : Nat → List Nat → Option (List Nat)
  | _, [] => some []
  | 0, _ :: _ => none
  | fuel + 1, b0 :: rest =>
    match utf8DecodeOne (b0 :: rest) with
    | some (c, rest2) =>
      match utf8DecodeFuel fuel rest2 with
      | some cs => some (c :: cs)
      | none => none
    | none => none

/-- Strict UTF-8 decoding of a byte list into code points, as Python's
`bytes.decode('utf-8')` (Python raises `UnicodeDecodeError` where the
model returns `none`). -/
def utf8Decode (bs : List Nat) : Option (List Nat) :=
  utf8DecodeFuel bs.length bs

/-! ## Submission driver (the per-chunk loop in `main`) -/

/-- Python `s.split(sep)` on character lists, for a non-empty separator
(the scripts never split on an empty separator, which Python rejects).
The `fuel` argument only drives structural recursion; it starts at the
list length and each step consumes at least one character per fuel
unit, so the `fuel = 0` fallback is unreachable. -/
def pySplitOnFuel (sep : List Char) : Nat → List Char → List (List Char)
  | _, [] => [[]]
  | 0, _ :: _ => [[]]
  | fuel + 1, c :: rest =>
    if 0 < sep.length ∧ sep.isPrefixOf (c :: rest) then
      [] :: pySplitOnFuel sep fuel ((c :: rest).drop sep.length)
    else
      match pySplitOnFuel sep fuel rest with
      | [] => [[c]]
      | l :: t => (c :: l) :: t

/-- Python `s.split(sep)`. -/
def pySplitOn (sep s : List Char) : List (List Char) :=
  pySplitOnFuel sep s.length s

/-- Python `sub in s` substring test. -/
def pyContains (needle : List Char) : List Char → Bool
  | [] => needle.isEmpty
  | c :: rest => needle.isPrefixOf (c :: rest) || pyContains needle rest

/-- Python `s.strip()`. -/
def pyStrip (s : List Char) : List Char :=
  ((s.dropWhile Char.isWhitespace).reverse.dropWhile Char.isWhitespace).reverse

/-- Python `s.split()` (no argument): maximal non-whitespace runs.  As
with `pySplitOnFuel`, `fuel` starts at the list length and only drives
structural recursion. -/
def wsTokensFuel : Nat → List Char → List (List Char)
  | _, [] => []
  | 0, _ :: _ => []
  | fuel + 1, c :: rest =>
    if c.isWhitespace then wsTokensFuel fuel rest
    else ((c :: rest).takeWhile (fun x => !x.isWhitespace)) ::
      wsTokensFuel fuel (rest.dropWhile (fun x => !x.isWhitespace))

/-- Python `s.split()`. -/
def wsTokens (s : List Char) : List (List Char) :=
  wsTokensFuel s.length s

/-- `'Transaction ID:'`. -/
def idMarker : List Char := "Transaction ID:".data

/-- `'Transaction sent:'`. -/
def sentMarker : List Char := "Transaction sent:".data

/-- `'CodeDoesNotExist'`. -/
def codeMarker : List Char := "CodeDoesNotExist".data

/-- `line.split('Transaction ID:')[1].strip().split()[0]`; `none` models the
`IndexError` Python raises when no token follows the marker. -/
def extractAfterId (line : List Char) : Option (List Char) :=
  (wsTokens (pyStrip ((pySplitOn idMarker line).getD 1 []))).head?

/-- `line.split(':')[1].strip().split()[0]`; `none` models the `IndexError`. -/
def extractAfterColon (line : List Char) : Option (List Char) :=
  (wsTokens (pyStrip ((pySplitOn [':'] line).getD 1 []))).head?

/-- The body of the transaction-hash scanning loop for one line:
`none` = no marker (keep scanning), `some r` = marker hit and the loop
breaks, where `r = none` models the `IndexError` crash. -/
def lineScan (line : List Char) : Option (Option (List Char)) :=
  if pyContains idMarker line then some (extractAfterId line)
  else if pyContains sentMarker line then some (extractAfterColon line)
  else none

/-- The transaction-hash scanning loop over all lines. -/
def scanLines : List (List Char) → Option (Option (List Char))
  | [] => none
  | l :: rest =>
    match lineScan l with
    | some r => some r
    | none => scanLines rest

/-- The outcome of one `subprocess.run` invocation of the `near` CLI. -/
structure BroadcastResult where
  returncode : Int
  stdout : String
  stderr : String
deriving DecidableEq

/-- `(result.stdout or '').split('\n') + (result.stderr or '').split('\n')`. -/
def combinedLines (r : BroadcastResult) : List (List Char) :=
  pySplitOn ['\n'] r.stdout.data ++ pySplitOn ['\n'] r.stderr.data

/-- `'CodeDoesNotExist' in (stderr + stdout)`. -/
def hasCodeMarker (r : BroadcastResult) : Bool :=
  pyContains codeMarker (r.stderr.data ++ r.stdout.data)

/-- What the loop body does with one chunk's broadcast result. -/
inductive ChunkStep where
  /-- An unhandled `IndexError` in the transaction-hash scan. -/
  | crashed
  /-- `sys.exit(1)` after printing the captured stdout and stderr. -/
  | abort (stdout stderr : String)
  /-- Proceed to the next chunk, recording the extracted hash if any. -/
  | cont (tx : Option (List Char))
deriving DecidableEq

/-- One iteration of the chunk-upload loop: scan for a transaction hash
(which can raise `IndexError`), then classify the exit status, treating a
non-zero exit whose combined `stderr + stdout` lacks `'CodeDoesNotExist'`
as fatal. -/
def processChunk (r : BroadcastResult) : ChunkStep :=
  match scanLines (combinedLines r) with
  | some none => ChunkStep.crashed
  | some (some t) =>
    if r.returncode ≠ 0 ∧ hasCodeMarker r = false then ChunkStep.abort r.stdout r.stderr
    else ChunkStep.cont (some t)
  | none =>
    if r.returncode ≠ 0 ∧ hasCodeMarker r = false then ChunkStep.abort r.stdout r.stderr
    else ChunkStep.cont none

/-- The transaction hash (`tx_hash`) the scan assigns when it does not
fault: the token of the first marker-bearing line, else `None`. -/
def chunkTx (r : BroadcastResult) : Option (List Char) :=
  match scanLines (combinedLines r) with
  | some (some t) => some t
  | _ => none

/-- How the whole upload session ends. -/
inductive SessionOutcome where
  /-- All chunks processed; the collected hashes in submission order. -/
  | completed (txs : List (List Char))
  /-- `sys.exit(1)` at the given chunk, with both captured streams. -/
  | aborted (chunkIdx : Nat) (stdout stderr : String)
  /-- Unhandled `IndexError` at the given chunk. -/
  | crashed (chunkIdx : Nat)
deriving DecidableEq

/-- The chunk-upload loop of `main`: `remaining` chunks starting at index
`i`, with `txs` the hashes collected so far (most recent first); the
broadcaster is the oracle `b`. -/
def runSession (b : Nat → BroadcastResult) : Nat → Nat → List (List Char) → SessionOutcome
  | 0, _, txs => SessionOutcome.completed txs.reverse
  | remaining + 1, i, txs =>
    match processChunk (b i) with
    | ChunkStep.crashed => SessionOutcome.crashed i
    | ChunkStep.abort so se => SessionOutcome.aborted i so se
    | ChunkStep.cont tx =>
      runSession b remaining (i + 1)
        (match tx with
         | some t => t :: txs
         | none => txs)

/-- The process exit status of each session outcome (`sys.exit(1)` and an
unhandled exception both exit non-zero; completion exits 0). -/
def sessionExitCode : SessionOutcome → Nat
  | SessionOutcome.completed _ => 0
  | SessionOutcome.aborted _ _ _ => 1
  | SessionOutcome.crashed _ => 1

/-! ## Keystore encryption (`encrypt_secrets.py` / `test_encryption.py`) -/

/-- `b"keystore-encryption-v1"`. -/
def KEY_LABEL : List Nat := strBytes "keystore-encryption-v1"

/-- Key derivation: `sha256(key_material ‖ b"keystore-encryption-v1")`. -/
def derive_key (key_material : List Nat) : List Nat :=
  sha256 (key_material ++ KEY_LABEL)

/-- `bytes(b ^ key[i % len(key)] for i, b in enumerate(data))`, indexing
from `i`. -/
def xorStreamAux (key : List Nat) : Nat → List Nat → List Nat
  | _, [] => []
  | i, b :: rest => (b ^^^ key.getD (i % key.length) 0) :: xorStreamAux key (i + 1) rest

/-- The XOR stream cipher used by both encryption and decryption. -/
def xorStream (key data : List Nat) : List Nat :=
  xorStreamAux key 0 data

/-- `encrypt_for_keystore` (as in `test_encryption.py`, taking the raw
public-key bytes): derive the key and XOR the UTF-8 plaintext bytes. -/
def encrypt_for_keystore (pubkey_bytes : List Nat) (plaintext : String) : List Nat :=
  xorStream (derive_key pubkey_bytes) (strBytes plaintext)

/-- `decrypt_for_keystore`: the identical XOR, then `.decode('utf-8')`. -/
def decrypt_for_keystore (pubkey_bytes : List Nat) (ciphertext : List Nat) : Option String :=
  match utf8Decode (xorStream (derive_key pubkey_bytes) ciphertext) with
  | some cs => some (String.mk (cs.map Char.ofNat))
  | none => none

/-! ## The `encrypt_secrets.py` command-line flow -/

/-- The reserved keys rejected by `encrypt_secrets.py`. -/
def RESERVED_KEYWORDS : List String :=
  ["NEAR_SENDER_ID",
   "NEAR_CONTRACT_ID",
   "NEAR_USER_ACCOUNT_ID",
   "NEAR_PAYMENT_YOCTO",
   "NEAR_TRANSACTION_HASH",
   "NEAR_BLOCK_HEIGHT",
   "NEAR_BLOCK_TIMESTAMP",
   "NEAR_MAX_INSTRUCTIONS",
   "NEAR_MAX_MEMORY_MB",
   "NEAR_MAX_EXECUTION_SECONDS",
   "NEAR_REQUEST_ID"]

/-- Observable effects of a run of `encrypt_secrets.py`, in order. -/
inductive Effect where
  /-- The HTTP request fetching the public key. -/
  | fetchPubkey
  /-- Printing the base64 ciphertext (carried here as raw bytes). -/
  | emitCiphertext (ct : List Nat)
  /-- Process termination with the given status. -/
  | exitWith (code : Nat)
deriving DecidableEq

/-- The effect trace of `main` in `encrypt_secrets.py` after the secrets
JSON has parsed to the object `secrets`: the reserved-keyword check runs
first, and only when it passes is the public key fetched and the raw
JSON text encrypted and emitted.  `pubkey_bytes` is what the fetch would
return. -/
def encryptSecretsMain (secrets : List (String × String)) (pubkey_bytes : List Nat)
    (secrets_json : String) : List Effect :=
  let reserved_found :=
    (secrets.map Prod.fst).filter (fun k => RESERVED_KEYWORDS.contains k)
  if reserved_found.isEmpty then
    [Effect.fetchPubkey,
     Effect.emitCiphertext (encrypt_for_keystore pubkey_bytes secrets_json),
     Effect.exitWith 0]
  else
    [Effect.exitWith 1]

/-! ## Helper lemmas: chunk planning -/

theorem pySlice_length (l : List Nat) (a b : Nat) :
    (pySlice l a b).length = min b l.length - a := by
  simp [pySlice]

theorem chunkPlan_eq_range (content : List Nat) :
    chunkPlan content =
      (List.range ((content.length + CHUNK_SIZE - 1) / CHUNK_SIZE)).map
        (fun i => (i * CHUNK_SIZE,
          pySlice content (i * CHUNK_SIZE) (min (i * CHUNK_SIZE + CHUNK_SIZE) content.length))) := by
  unfold chunkPlan pyRange
  have h : ¬ (CHUNK_SIZE = 0) := by decide
  simp only [h, if_false, List.map_map, Nat.sub_zero]
  exact List.map_congr_left (fun i _ => by simp)

theorem chunk_index_mul_lt {i n K : Nat} (hK : 0 < K) (hi : i < (n + K - 1) / K) :
    i * K < n := by
  have h1 : (i + 1) * K ≤ n + K - 1 := (Nat.le_div_iff_mul_le hK).mp hi
  have h2 : (i + 1) * K = i * K + K := Nat.succ_mul i K
  rw [h2] at h1
  generalize i * K = a at h1 ⊢
  omega

theorem slice_shift (l : List Nat) (K i : Nat) (hKn : K ≤ l.length) :
    pySlice l ((i + 1) * K) (min ((i + 1) * K + K) l.length) =
    pySlice (l.drop K) (i * K) (min (i * K + K) (l.drop K).length) := by
  unfold pySlice
  rw [List.length_drop, Nat.succ_mul]
  generalize i * K = a
  rw [List.take_drop, List.drop_drop]
  have h1 : min (a + K + K) l.length = K + min (a + K) (l.length - K) := by omega
  have h2 : a + K = K + a := Nat.add_comm a K
  rw [h1, h2]

theorem join_chunks (K : Nat) (hK : 0 < K) :
    ∀ n (l : List Nat), l.length = n →
      ((List.range ((l.length + K - 1) / K)).map
        (fun i => pySlice l (i * K) (min (i * K + K) l.length))).flatten = l := by
  intro n
  induction n using Nat.strong_induction_on with
  | _ n ih =>
    intro l hl
    rcases Nat.eq_zero_or_pos n with h0 | hpos
    · have hnil : l = [] := List.length_eq_zero.mp (h0 ▸ hl)
      subst hnil
      simp [pySlice]
    · have hm : (l.length + K - 1) / K = (n - 1) / K + 1 := by
        rw [hl]
        have he : n + K - 1 = (n - 1) + K := by omega
        rw [he, Nat.add_div_right _ hK]
      rw [hm, List.range_succ_eq_map, List.map_cons, List.flatten_cons]
      by_cases hnK : n ≤ K
      · have hm0 : (n - 1) / K = 0 := Nat.div_eq_of_lt (by omega)
        have hmin : min (0 * K + K) l.length = l.length := by
          rw [hl]; omega
        rw [hm0]
        simp only [List.range_zero, List.map_nil, List.flatten_nil, List.append_nil]
        rw [hmin]
        simp [pySlice]
      · have hKle : K ≤ l.length := by omega
        have hshift : ∀ i : Nat,
            pySlice l (Nat.succ i * K) (min (Nat.succ i * K + K) l.length) =
            pySlice (l.drop K) (i * K) (min (i * K + K) (l.drop K).length) :=
          fun i => slice_shift l K i hKle
        rw [List.map_map]
        have hcong :
            (List.range ((n - 1) / K)).map
              ((fun i => pySlice l (i * K) (min (i * K + K) l.length)) ∘ Nat.succ) =
            (List.range ((n - 1) / K)).map
              (fun i => pySlice (l.drop K) (i * K) (min (i * K + K) (l.drop K).length)) :=
          List.map_congr_left (fun i _ => hshift i)
        rw [hcong]
        have hlen : (l.drop K).length = n - K := by rw [List.length_drop, hl]
        have hm' : ((l.drop K).length + K - 1) / K = (n - 1) / K := by
          rw [hlen]
          have : n - K + K - 1 = n - 1 := by omega
          rw [this]
        have hih := ih (n - K) (by omega) (l.drop K) hlen
        rw [hm'] at hih
        rw [hih]
        have hmin0 : min (0 * K + K) l.length = K := by omega
        rw [hmin0]
        simp only [pySlice, Nat.zero_mul, List.drop_zero]
        exact List.take_append_drop K l

/-! ## Claims C3, C4: the chunk planner -/

/-- C3 (counterexample): for content of length 0 the loop
`for offset in range(0, full_size, CHUNK_SIZE)` never runs, so the planner
emits zero chunks, not the single zero-length chunk the claim states. -/
theorem c3_counterexample :
    chunkPlan ([] : List Nat) = [] ∧ (chunkPlan ([] : List Nat)).length ≠ 1 := by
  constructor
  · rfl
  · intro h
    simp [chunkPlan, pyRange, CHUNK_SIZE] at h

/-- C3 (amended): for content of length 0 the Chunk Planner emits zero
chunks, so no payload is produced or submitted. -/
theorem c3_empty_content_zero_chunks (content : List Nat) (h : content.length = 0) :
    chunkPlan content = [] ∧
    ∀ path mime now, create_fastfs_payloads path mime content now = [] := by
  have hc : content = [] := List.length_eq_zero.mp h
  subst hc
  refine ⟨rfl, ?_⟩
  intro path mime now
  rfl

/-- C3 (witness): the amended claim at the empty content. -/
theorem c3_witness :
    ([] : List Nat).length = 0 ∧ chunkPlan ([] : List Nat) = [] ∧
    create_fastfs_payloads "p" "m" ([] : List Nat) 0 = [] :=
  ⟨rfl, (c3_empty_content_zero_chunks [] rfl).1,
    (c3_empty_content_zero_chunks [] rfl).2 "p" "m" 0⟩

/-- C4: for non-empty content the planner produces
`ceil(len / CHUNK_SIZE)` chunks; their offsets are the strictly
increasing multiples `0, CHUNK_SIZE, 2*CHUNK_SIZE, …`; each chunk holds
at most `CHUNK_SIZE` bytes with `offset + len(bytes) ≤ full_size`;
consecutive chunks leave no gap or overlap; and concatenating the chunk
bytes in order reconstructs the content exactly. -/
theorem c4_chunk_planner_partitions (content : List Nat) (hne : content ≠ []) :
    (chunkPlan content).length = content.length ⌈/⌉ CHUNK_SIZE ∧
    (chunkPlan content).map Prod.fst =
      (List.range (chunkPlan content).length).map (fun i => i * CHUNK_SIZE) ∧
    List.Pairwise (fun a b => a < b) ((chunkPlan content).map Prod.fst) ∧
    (∀ c ∈ chunkPlan content,
      c.2.length ≤ CHUNK_SIZE ∧ c.1 + c.2.length ≤ content.length) ∧
    List.Chain' (fun c c' => c'.1 = c.1 + c.2.length) (chunkPlan content) ∧
    ((chunkPlan content).map Prod.snd).flatten = content := by
  have hK : 0 < CHUNK_SIZE := by decide
  refine ⟨?_, ?_, ?_, ?_, ?_, ?_⟩
  · rw [chunkPlan_eq_range, Nat.ceilDiv_eq_add_pred_div]
    simp
  · rw [chunkPlan_eq_range, List.map_map, List.length_map, List.length_range]
    rfl
  · rw [chunkPlan_eq_range, List.map_map]
    exact List.Pairwise.map _ (fun a b hab => (mul_lt_mul_right hK).mpr hab)
      (List.pairwise_lt_range _)
  · rw [chunkPlan_eq_range]
    rw [List.forall_mem_map]
    intro i hi
    have hlt : i * CHUNK_SIZE < content.length :=
      chunk_index_mul_lt hK (List.mem_range.mp hi)
    rw [pySlice_length]
    constructor
    · generalize i * CHUNK_SIZE = a at hlt ⊢
      omega
    · generalize i * CHUNK_SIZE = a at hlt ⊢
      omega
  · rw [chunkPlan_eq_range, List.chain'_map]
    rw [List.chain'_iff_get]
    intro i hi
    simp only [List.get_eq_getElem, List.getElem_range]
    rw [pySlice_length]
    have hm : i + 1 < (content.length + CHUNK_SIZE - 1) / CHUNK_SIZE := by
      simp at hi
      omega
    have hlt : (i + 1) * CHUNK_SIZE < content.length := chunk_index_mul_lt hK hm
    rw [Nat.succ_mul] at hlt ⊢
    generalize i * CHUNK_SIZE = a at hlt ⊢
    omega
  · rw [chunkPlan_eq_range, List.map_map]
    exact join_chunks CHUNK_SIZE hK content.length content rfl

/-- C4 (witness): the partition properties at the one-byte content `[7]`. -/
theorem c4_witness :
    ([7] : List Nat) ≠ [] ∧
    (chunkPlan [7]).length = ([7] : List Nat).length ⌈/⌉ CHUNK_SIZE ∧
    List.Pairwise (fun a b => a < b) ((chunkPlan [7]).map Prod.fst) ∧
    ((chunkPlan [7]).map Prod.snd).flatten = [7] :=
  ⟨by decide, (c4_chunk_planner_partitions [7] (by decide)).1,
    (c4_chunk_planner_partitions [7] (by decide)).2.2.1,
    (c4_chunk_planner_partitions [7] (by decide)).2.2.2.2.2⟩

/-! ## Claim C5: the chunk frame layout -/

/-- C5: the encoded chunk frame is exactly the discriminator byte `1`,
the length-prefixed UTF-8 relative path, the little-endian offset and
full size, the length-prefixed UTF-8 MIME type, the length-prefixed
chunk bytes, and the little-endian nonce; and `le32` really is the
4-byte little-endian encoding (length 4, value the argument mod 2^32). -/
theorem c5_chunk_frame_layout :
    (∀ path offset full_size chunk mime nonce,
      create_fastfs_partial_payload path offset full_size (chunk : List Nat) mime nonce =
        [1] ++ (le32 (strBytes path).length ++ strBytes path) ++
        le32 offset ++ le32 full_size ++
        (le32 (strBytes mime).length ++ strBytes mime) ++
        (le32 chunk.length ++ chunk) ++ le32 nonce) ∧
    (∀ x, (le32 x).length = 4) ∧
    (∀ x, leValue (le32 x) = x % 2 ^ 32) := by
  refine ⟨?_, ?_, ?_⟩
  · intro path offset full_size chunk mime nonce
    rfl
  · intro x
    rfl
  · intro x
    simp only [le32, leValue]
    omega

/-! ## Claim C6: one session nonce on every chunk -/

/-- C6: every payload of one session ends in the same 4-byte nonce,
the single value `int(time.time()) - 1769376240` computed once per
session (`now` is the wall clock; the hypothesis matches the script
running after the fixed epoch offset). -/
theorem c6_session_nonce (path mime : String) (content : List Nat) (now : Nat)
    (p : List Nat) (hp : p ∈ create_fastfs_payloads path mime content now) :
    p.drop (p.length - 4) = le32 (now - NONCE_EPOCH) := by
  obtain ⟨oc, _hoc, rfl⟩ := List.mem_map.mp hp
  unfold create_fastfs_partial_payload
  generalize packU8 1 ++ borsh_string path ++ le32 oc.1 ++ le32 content.length ++
    borsh_string mime ++ borsh_bytes oc.2 = front
  rw [List.length_append]
  have h4 : (le32 (now - NONCE_EPOCH)).length = 4 := rfl
  rw [h4, Nat.add_sub_cancel]
  exact List.drop_left front _

/-- C6 (witness): the first payload of a concrete session carries the
session nonce `le32 7`. -/
theorem c6_witness :
    (create_fastfs_payloads "a" "m" [5] (NONCE_EPOCH + 7)).headI ∈
      create_fastfs_payloads "a" "m" [5] (NONCE_EPOCH + 7) ∧
    (create_fastfs_payloads "a" "m" [5] (NONCE_EPOCH + 7)).headI.drop
      ((create_fastfs_payloads "a" "m" [5] (NONCE_EPOCH + 7)).headI.length - 4) =
      le32 (NONCE_EPOCH + 7 - NONCE_EPOCH) :=
  ⟨by decide, c6_session_nonce "a" "m" [5] (NONCE_EPOCH + 7) _ (by decide)⟩

/-! ## Claims C1, C2, C7: the submission driver -/

/-- C1 (counterexample): a non-zero exit whose combined output contains
`CodeDoesNotExist` is NOT always classified as Success: when a line holds
`Transaction ID:` with no token after it, `split()[0]` raises
`IndexError` and the session dies instead of proceeding. -/
theorem c1_counterexample :
    (1 : Int) ≠ 0 ∧
    hasCodeMarker ⟨1, "Transaction ID:", "CodeDoesNotExist"⟩ = true ∧
    processChunk ⟨1, "Transaction ID:", "CodeDoesNotExist"⟩ = ChunkStep.crashed ∧
    runSession (fun _ => ⟨1, "Transaction ID:", "CodeDoesNotExist"⟩) 2 0 [] =
      SessionOutcome.crashed 0 := by
  refine ⟨by decide, by decide, by decide, by decide⟩

/-- C1 (amended): provided the transaction-hash scan of the invocation's
output does not fault, a zero exit code, or a non-zero exit code whose
combined `stderr + stdout` contains `CodeDoesNotExist`, is classified as
Success and the driver proceeds to the next chunk. -/
theorem c1_success_classification (b : Nat → BroadcastResult) (remaining i : Nat)
    (txs : List (List Char))
    (hscan : scanLines (combinedLines (b i)) ≠ some none)
    (hok : (b i).returncode = 0 ∨ hasCodeMarker (b i) = true) :
    processChunk (b i) = ChunkStep.cont (chunkTx (b i)) ∧
    runSession b (remaining + 1) i txs =
      runSession b remaining (i + 1)
        (match chunkTx (b i) with
         | some t => t :: txs
         | none => txs) := by
  have hcond : ¬ ((b i).returncode ≠ 0 ∧ hasCodeMarker (b i) = false) := by
    rcases hok with h | h
    · intro hc
      exact hc.1 h
    · intro hc
      rw [h] at hc
      exact absurd hc.2 (by simp)
  have hpc : processChunk (b i) = ChunkStep.cont (chunkTx (b i)) := by
    unfold processChunk chunkTx
    rcases hs : scanLines (combinedLines (b i)) with _ | ot
    · simp [hcond]
    · rcases ot with _ | t
      · exact absurd hs hscan
      · simp [hcond]
  exact ⟨hpc, by simp [runSession, hpc]⟩

/-- C1 (witness): exit code 1 with `CodeDoesNotExist` on stderr is
classified as Success and the driver moves from chunk 0 to chunk 1. -/
theorem c1_witness :
    scanLines (combinedLines ⟨1, "", "CodeDoesNotExist"⟩) ≠ some none ∧
    hasCodeMarker ⟨1, "", "CodeDoesNotExist"⟩ = true ∧
    processChunk ⟨1, "", "CodeDoesNotExist"⟩ =
      ChunkStep.cont (chunkTx ⟨1, "", "CodeDoesNotExist"⟩) ∧
    runSession (fun _ => (⟨1, "", "CodeDoesNotExist"⟩ : BroadcastResult)) 2 0 [] =
      runSession (fun _ => (⟨1, "", "CodeDoesNotExist"⟩ : BroadcastResult)) 1 1 [] :=
  ⟨by decide, by decide,
    (c1_success_classification (fun _ => ⟨1, "", "CodeDoesNotExist"⟩) 1 0 []
      (by decide) (Or.inr (by decide))).1,
    (c1_success_classification (fun _ => ⟨1, "", "CodeDoesNotExist"⟩) 1 0 []
      (by decide) (Or.inr (by decide))).2⟩

/-- C2 (counterexample): a failing chunk does not always surface both
captured streams: with `Transaction ID:` and no token in the output, the
scan raises `IndexError` before the failure branch, so the session dies
with a traceback instead of the `STDOUT:`/`STDERR:` diagnostic. -/
theorem c2_counterexample :
    (1 : Int) ≠ 0 ∧
    hasCodeMarker ⟨1, "Transaction ID:", "boom"⟩ = false ∧
    runSession (fun _ => (⟨1, "Transaction ID:", "boom"⟩ : BroadcastResult)) 2 0 [] =
      SessionOutcome.crashed 0 ∧
    SessionOutcome.crashed 0 ≠ SessionOutcome.aborted 0 "Transaction ID:" "boom" := by
  refine ⟨by decide, by decide, by decide, by decide⟩

/-- C2 (amended): provided the transaction-hash scan does not fault, a
non-zero exit without the `CodeDoesNotExist` marker aborts the session at
that chunk — for any number of remaining chunks, none of which is
attempted — carrying both captured streams verbatim and exiting with
status 1. -/
theorem c2_transport_failure_aborts (b : Nat → BroadcastResult) (remaining i : Nat)
    (txs : List (List Char))
    (hscan : scanLines (combinedLines (b i)) ≠ some none)
    (hrc : (b i).returncode ≠ 0)
    (hnm : hasCodeMarker (b i) = false) :
    processChunk (b i) = ChunkStep.abort (b i).stdout (b i).stderr ∧
    runSession b (remaining + 1) i txs =
      SessionOutcome.aborted i (b i).stdout (b i).stderr ∧
    sessionExitCode (runSession b (remaining + 1) i txs) = 1 := by
  have hpc : processChunk (b i) = ChunkStep.abort (b i).stdout (b i).stderr := by
    unfold processChunk
    rcases hs : scanLines (combinedLines (b i)) with _ | ot
    · simp [hrc, hnm]
    · rcases ot with _ | t
      · exact absurd hs hscan
      · simp [hrc, hnm]
  refine ⟨hpc, ?_, ?_⟩
  · simp [runSession, hpc]
  · simp [runSession, hpc, sessionExitCode]

/-- C2 (witness): exit code 1 with neither marker aborts at chunk 0 with
both streams, no matter how many chunks remain. -/
theorem c2_witness :
    scanLines (combinedLines ⟨1, "out", "err"⟩) ≠ some none ∧
    (1 : Int) ≠ 0 ∧
    hasCodeMarker ⟨1, "out", "err"⟩ = false ∧
    runSession (fun _ => (⟨1, "out", "err"⟩ : BroadcastResult)) 3 0 [] =
      SessionOutcome.aborted 0 "out" "err" ∧
    sessionExitCode (runSession (fun _ => (⟨1, "out", "err"⟩ : BroadcastResult)) 3 0 []) = 1 :=
  ⟨by decide, by decide, by decide,
    (c2_transport_failure_aborts (fun _ => ⟨1, "out", "err"⟩) 2 0 []
      (by decide) (by decide) (by decide)).2.1,
    (c2_transport_failure_aborts (fun _ => ⟨1, "out", "err"⟩) 2 0 []
      (by decide) (by decide) (by decide)).2.2⟩

/-- C7 (counterexample): the scan does not always take the first match as
the identifier: a line holding `Transaction ID:` with no token after it
crashes the driver (even on exit code 0), so no identifier is taken and
the chunk fails. -/
theorem c7_counterexample :
    pyContains idMarker "Transaction ID:".data = true ∧
    processChunk ⟨0, "Transaction ID:", ""⟩ = ChunkStep.crashed ∧
    runSession (fun _ => (⟨0, "Transaction ID:", ""⟩ : BroadcastResult)) 1 0 [] =
      SessionOutcome.crashed 0 := by
  refine ⟨by decide, by decide, by decide⟩

/-- C7 (amended): the scan walks the stdout lines then the stderr lines,
trying `Transaction ID:` then `Transaction sent:` on each; the first
marker-bearing line decides the result, and — provided its token
extraction does not fault — that token is the transaction identifier;
when no line holds either marker the identifier is absent (`tx_hash` is
`None`) and that absence alone never classifies the chunk as a failure
(failure needs a non-zero exit without `CodeDoesNotExist`). -/
theorem c7_transaction_id_scan :
    (∀ pre line post tok,
      (∀ l ∈ pre, lineScan l = none) →
      lineScan line = some (some tok) →
      scanLines (pre ++ line :: post) = some (some tok)) ∧
    (∀ ls : List (List Char),
      (∀ l ∈ ls, pyContains idMarker l = false ∧ pyContains sentMarker l = false) →
      scanLines ls = none) ∧
    (∀ r : BroadcastResult, scanLines (combinedLines r) = none →
      chunkTx r = none ∧
      (processChunk r = ChunkStep.abort r.stdout r.stderr ↔
        (r.returncode ≠ 0 ∧ hasCodeMarker r = false))) := by
  refine ⟨?_, ?_, ?_⟩
  · intro pre
    induction pre with
    | nil =>
      intro line post tok _ hline
      simp [scanLines, hline]
    | cons l ls ih =>
      intro line post tok hpre hline
      have hl : lineScan l = none := hpre l (List.mem_cons_self l ls)
      simp only [List.cons_append, scanLines, hl]
      exact ih line post tok (fun x hx => hpre x (List.mem_cons_of_mem l hx)) hline
  · intro ls h
    induction ls with
    | nil => rfl
    | cons l rest ih =>
      have hl : lineScan l = none := by
        have h1 := (h l (List.mem_cons_self l rest)).1
        have h2 := (h l (List.mem_cons_self l rest)).2
        simp [lineScan, h1, h2]
      simp only [scanLines, hl]
      exact ih (fun x hx => h x (List.mem_cons_of_mem l hx))
  · intro r h
    constructor
    · simp [chunkTx, h]
    · unfold processChunk
      rw [h]
      by_cases hc : (r.returncode ≠ 0 ∧ hasCodeMarker r = false)
      · simp [hc]
      · simp [hc]

/-- C7 (witness): the first marker line wins over later lines, a
marker-free output yields no identifier, and on exit code 0 that absence
is not a failure. -/
theorem c7_witness :
    scanLines ([['x']] ++ "Transaction ID: abc".data :: [['y']]) =
      some (some ['a', 'b', 'c']) ∧
    scanLines [['h', 'i']] = none ∧
    chunkTx ⟨0, "hi", ""⟩ = none ∧
    (processChunk ⟨0, "hi", ""⟩ = ChunkStep.abort "hi" "" ↔
      ((0 : Int) ≠ 0 ∧ hasCodeMarker ⟨0, "hi", ""⟩ = false)) :=
  ⟨c7_transaction_id_scan.1 [['x']] "Transaction ID: abc".data [['y']] ['a', 'b', 'c']
      (by decide) (by decide),
    c7_transaction_id_scan.2.1 [['h', 'i']] (by decide),
    (c7_transaction_id_scan.2.2 ⟨0, "hi", ""⟩ (by decide)).1,
    (c7_transaction_id_scan.2.2 ⟨0, "hi", ""⟩ (by decide)).2⟩

/-! ## Helper lemmas: digest shape -/

theorem sha256Compress_length (H block : List Nat) (hH : H.length = 8) :
    (sha256Compress H block).length = 8 := by
  unfold sha256Compress
  generalize ((sha256K.zip (sha256Schedule (toWordsBE block))).foldl sha256Round
    (H.getD 0 0, H.getD 1 0, H.getD 2 0, H.getD 3 0,
     H.getD 4 0, H.getD 5 0, H.getD 6 0, H.getD 7 0)) = st
  obtain ⟨a, b, c, d, e, f, g, h⟩ := st
  simp [List.length_zipWith, hH]

theorem foldl_compress_length (blocks : List (List Nat)) :
    ∀ H : List Nat, H.length = 8 → (blocks.foldl sha256Compress H).length = 8 := by
  induction blocks with
  | nil =>
    intro H hH
    simpa using hH
  | cons b bs ih =>
    intro H hH
    simp only [List.foldl_cons]
    exact ih _ (sha256Compress_length H b hH)

theorem sha256Words_length (msg : List Nat) : (sha256Words msg).length = 8 :=
  foldl_compress_length _ sha256H0 rfl

theorem sha256_length (msg : List Nat) : (sha256 msg).length = 32 := by
  unfold sha256
  rw [List.length_flatten, List.map_map]
  have h : (sha256Words msg).map (List.length ∘ wordBytesBE) =
      (sha256Words msg).map (fun _ => 4) :=
    List.map_congr_left (fun x _ => rfl)
  rw [h, List.map_const', List.sum_replicate, sha256Words_length]
  rfl

theorem sha256hex_length (msg : List Nat) : (sha256hex msg).length = 64 := by
  have h : ((sha256 msg).map hexByte).flatten.length = 64 := by
    rw [List.length_flatten, List.map_map]
    have h2 : (sha256 msg).map (List.length ∘ hexByte) = (sha256 msg).map (fun _ => 2) :=
      List.map_congr_left (fun x _ => rfl)
    rw [h2, List.map_const', List.sum_replicate, sha256_length]
    rfl
  exact h

theorem hexDigits_getD_mem (n : Nat) : hexDigits.getD n '0' ∈ hexDigits := by
  by_cases h : n < hexDigits.length
  · rw [List.getD_eq_getElem _ _ h]
    exact List.getElem_mem h
  · rw [List.getD_eq_default _ _ (by omega)]
    decide

theorem sha256hex_lower (msg : List Nat) :
    ((sha256hex msg).data.all (fun c => decide (c ∈ hexDigits))) = true := by
  rw [List.all_eq_true]
  intro c hc
  rw [decide_eq_true_eq]
  have hc' : c ∈ ((sha256 msg).map hexByte).flatten := hc
  rw [List.mem_flatten] at hc'
  obtain ⟨l, hl, hcl⟩ := hc'
  rw [List.mem_map] at hl
  obtain ⟨b, _, rfl⟩ := hl
  have hcase : c = hexDigits.getD (b / 16 % 16) '0' ∨ c = hexDigits.getD (b % 16) '0' := by
    simpa [hexByte] using hcl
  rcases hcase with rfl | rfl
  · exact hexDigits_getD_mem _
  · exact hexDigits_getD_mem _

/-! ## Claim C8: content addressing and the access URL -/

/-- C8: the relative path is the lowercase hex SHA-256 digest of the
content followed by the `.wasm` extension — a pure, deterministic
function of the content bytes (64 lowercase hex characters) — and the
reported access URL is exactly
`https://<sender>.fastfs.io/<receiver>/<relativePath>`. -/
theorem c8_content_addressing (content : List Nat) (sender receiver : String) :
    relative_path content = sha256hex content ++ ".wasm" ∧
    (∀ content2, content2 = content → relative_path content2 = relative_path content) ∧
    (sha256hex content).length = 64 ∧
    ((sha256hex content).data.all (fun c => decide (c ∈ hexDigits))) = true ∧
    fastfs_url sender receiver (relative_path content) =
      "https://" ++ sender ++ ".fastfs.io/" ++ receiver ++ "/" ++ relative_path content :=
  ⟨rfl, fun _ h => by rw [h], sha256hex_length content, sha256hex_lower content, rfl⟩

/-- C8 (witness): identical content yields the identical path, and the
digest of a concrete content has the claimed shape. -/
theorem c8_witness :
    ([1, 2] : List Nat) = [1, 2] ∧
    relative_path [1, 2] = relative_path [1, 2] ∧
    (sha256hex [1, 2]).length = 64 ∧
    fastfs_url "s" "r" (relative_path [1, 2]) =
      "https://" ++ "s" ++ ".fastfs.io/" ++ "r" ++ "/" ++ relative_path [1, 2] :=
  ⟨rfl, (c8_content_addressing [1, 2] "s" "r").2.1 [1, 2] rfl,
    (c8_content_addressing [1, 2] "s" "r").2.2.1,
    (c8_content_addressing [1, 2] "s" "r").2.2.2.2⟩

/-! ## Helper lemmas: UTF-8 round trip and XOR involution -/

theorem utf8EncodeChar_length_pos (c : Nat) : 0 < (utf8EncodeChar c).length := by
  unfold utf8EncodeChar
  split_ifs <;> simp

theorem utf8DecodeOne_encodeChar (c : Nat) (hc : Nat.isValidChar c) (bs : List Nat) :
    utf8DecodeOne (utf8EncodeChar c ++ bs) = some (c, bs) := by
  have hc' : c < 1114112 := by
    rcases hc with h | h
    · omega
    · exact h.2
  by_cases h1 : c < 0x80
  · unfold utf8EncodeChar
    rw [if_pos h1]
    simp only [List.cons_append, List.nil_append, utf8DecodeOne]
    rw [if_pos h1]
  · by_cases h2 : c < 0x800
    · unfold utf8EncodeChar
      rw [if_neg h1, if_pos h2]
      simp only [List.cons_append, List.nil_append, utf8DecodeOne]
      rw [if_neg (by omega : ¬ (0xC0 + c / 64 < 0x80)),
        if_neg (by omega : ¬ (0xC0 + c / 64 < 0xC2)),
        if_pos (by omega : 0xC0 + c / 64 < 0xE0)]
      simp only [utf8Tail1]
      rw [if_pos (⟨by omega, by omega⟩ : 0x80 ≤ 0x80 + c % 64 ∧ 0x80 + c % 64 < 0xC0)]
      have hval : (0xC0 + c / 64 - 0xC0) * 64 + (0x80 + c % 64 - 0x80) = c := by omega
      rw [hval]
    · by_cases h3 : c < 0x10000
      · unfold utf8EncodeChar
        rw [if_neg h1, if_neg h2, if_pos h3]
        simp only [List.cons_append, List.nil_append, utf8DecodeOne]
        rw [if_neg (by omega : ¬ (0xE0 + c / 4096 < 0x80)),
          if_neg (by omega : ¬ (0xE0 + c / 4096 < 0xC2)),
          if_neg (by omega : ¬ (0xE0 + c / 4096 < 0xE0)),
          if_pos (by omega : 0xE0 + c / 4096 < 0xF0)]
        simp only [utf8Tail2]
        rw [if_pos (⟨⟨by omega, by omega⟩, by omega, by omega⟩ :
          (0x80 ≤ 0x80 + c / 64 % 64 ∧ 0x80 + c / 64 % 64 < 0xC0) ∧
          0x80 ≤ 0x80 + c % 64 ∧ 0x80 + c % 64 < 0xC0)]
        have hval : (0xE0 + c / 4096 - 0xE0) * 4096 + (0x80 + c / 64 % 64 - 0x80) * 64 +
            (0x80 + c % 64 - 0x80) = c := by omega
        rw [hval]
        have hguard : 0x800 ≤ c ∧ ¬ (0xD800 ≤ c ∧ c < 0xE000) := by
          rcases hc with h | h
          · exact ⟨by omega, by omega⟩
          · exact ⟨by omega, by omega⟩
        rw [if_pos hguard]
      · unfold utf8EncodeChar
        rw [if_neg h1, if_neg h2, if_neg h3]
        simp only [List.cons_append, List.nil_append, utf8DecodeOne]
        rw [if_neg (by omega : ¬ (0xF0 + c / 262144 < 0x80)),
          if_neg (by omega : ¬ (0xF0 + c / 262144 < 0xC2)),
          if_neg (by omega : ¬ (0xF0 + c / 262144 < 0xE0)),
          if_neg (by omega : ¬ (0xF0 + c / 262144 < 0xF0)),
          if_pos (by omega : 0xF0 + c / 262144 < 0xF5)]
        simp only [utf8Tail3]
        rw [if_pos (⟨⟨by omega, by omega⟩, ⟨by omega, by omega⟩, by omega, by omega⟩ :
          (0x80 ≤ 0x80 + c / 4096 % 64 ∧ 0x80 + c / 4096 % 64 < 0xC0) ∧
          (0x80 ≤ 0x80 + c / 64 % 64 ∧ 0x80 + c / 64 % 64 < 0xC0) ∧
          0x80 ≤ 0x80 + c % 64 ∧ 0x80 + c % 64 < 0xC0)]
        have hval : (0xF0 + c / 262144 - 0xF0) * 262144 + (0x80 + c / 4096 % 64 - 0x80) * 4096 +
            (0x80 + c / 64 % 64 - 0x80) * 64 + (0x80 + c % 64 - 0x80) = c := by omega
        rw [hval]
        rw [if_pos (⟨by omega, by omega⟩ : 0x10000 ≤ c ∧ c < 0x110000)]

theorem utf8DecodeFuel_encode (cs : List Nat) :
    ∀ fuel : Nat, (∀ c ∈ cs, Nat.isValidChar c) →
      ((cs.map utf8EncodeChar).flatten).length ≤ fuel →
      utf8DecodeFuel fuel ((cs.map utf8EncodeChar).flatten) = some cs := by
  induction cs with
  | nil =>
    intro fuel _ _
    cases fuel <;> rfl
  | cons c rest ih =>
    intro fuel h hlen
    have hc := h c (List.mem_cons_self c rest)
    rcases he : utf8EncodeChar c with _ | ⟨b0, tl⟩
    · have hp := utf8EncodeChar_length_pos c
      rw [he] at hp
      simp at hp
    · rw [List.map_cons, List.flatten_cons, he, List.cons_append] at hlen ⊢
      cases fuel with
      | zero => simp at hlen
      | succ fuel2 =>
        simp only [utf8DecodeFuel]
        have hone : utf8DecodeOne (b0 :: (tl ++ (rest.map utf8EncodeChar).flatten)) =
            some (c, (rest.map utf8EncodeChar).flatten) := by
          have h2 := utf8DecodeOne_encodeChar c hc ((rest.map utf8EncodeChar).flatten)
          rw [he, List.cons_append] at h2
          exact h2
        rw [hone]
        show (match utf8DecodeFuel fuel2 ((rest.map utf8EncodeChar).flatten) with
          | some cs => some (c :: cs)
          | none => none) = some (c :: rest)
        rw [ih fuel2 (fun x hx => h x (List.mem_cons_of_mem c hx)) (by
          simp only [List.length_cons, List.length_append] at hlen
          omega)]

theorem utf8Decode_encode (cs : List Nat) (h : ∀ c ∈ cs, Nat.isValidChar c) :
    utf8Decode ((cs.map utf8EncodeChar).flatten) = some cs :=
  utf8DecodeFuel_encode cs _ h (le_refl _)

theorem xorStreamAux_involution (key : List Nat) :
    ∀ (i : Nat) (data : List Nat), xorStreamAux key i (xorStreamAux key i data) = data := by
  intro i data
  induction data generalizing i with
  | nil => rfl
  | cons b rest ih =>
    simp only [xorStreamAux]
    rw [Nat.xor_assoc, Nat.xor_self, Nat.xor_zero, ih]

/-! ## Claim C9: encryption round trip -/

/-- C9: decrypting the encryption of any plaintext string under any
32-byte key material returns exactly the plaintext: the symmetric key is
`SHA-256(key_material ‖ "keystore-encryption-v1")`, both directions XOR
against the repeating key stream, and the final UTF-8 decode inverts the
initial UTF-8 encode. -/
theorem c9_encryption_roundtrip (pubkey_bytes : List Nat) (P : String)
    (hk : pubkey_bytes.length = 32) :
    decrypt_for_keystore pubkey_bytes (encrypt_for_keystore pubkey_bytes P) = some P := by
  unfold decrypt_for_keystore encrypt_for_keystore xorStream
  rw [xorStreamAux_involution]
  have hv : ∀ c ∈ P.data.map Char.toNat, Nat.isValidChar c := by
    intro c hcm
    rw [List.mem_map] at hcm
    obtain ⟨ch, _, rfl⟩ := hcm
    exact ch.valid
  have henc : strBytes P = ((P.data.map Char.toNat).map utf8EncodeChar).flatten := by
    unfold strBytes
    rw [List.map_map]
    rfl
  rw [henc, utf8Decode_encode _ hv]
  show some (String.mk ((P.data.map Char.toNat).map Char.ofNat)) = some P
  rw [List.map_map]
  have hmap : ∀ ch ∈ P.data, (Char.ofNat ∘ Char.toNat) ch = id ch :=
    fun ch _ => Char.ofNat_toNat ch
  rw [List.map_congr_left hmap, List.map_id]

/-- C9 (witness): the round trip at a concrete key and plaintext. -/
theorem c9_witness :
    (List.replicate 32 0).length = 32 ∧
    decrypt_for_keystore (List.replicate 32 0)
      (encrypt_for_keystore (List.replicate 32 0) "hi") = some "hi" :=
  ⟨by decide, c9_encryption_roundtrip (List.replicate 32 0) "hi" (by decide)⟩

/-! ## Claim C10: reserved secret keys are rejected -/

/-- C10: when the parsed secrets object contains any reserved key, the
program exits with status 1 before any public key is fetched, and no
ciphertext is produced. -/
theorem c10_reserved_keys_rejected (secrets : List (String × String))
    (pubkey_bytes : List Nat) (secrets_json : String)
    (hres : ∃ k, k ∈ secrets.map Prod.fst ∧ k ∈ RESERVED_KEYWORDS) :
    encryptSecretsMain secrets pubkey_bytes secrets_json = [Effect.exitWith 1] ∧
    Effect.fetchPubkey ∉ encryptSecretsMain secrets pubkey_bytes secrets_json ∧
    (∀ ct, Effect.emitCiphertext ct ∉ encryptSecretsMain secrets pubkey_bytes secrets_json) := by
  obtain ⟨k, hk1, hk2⟩ := hres
  have he : ((secrets.map Prod.fst).filter
      (fun k2 => RESERVED_KEYWORDS.contains k2)).isEmpty = false := by
    cases hcase : ((secrets.map Prod.fst).filter
        (fun k2 => RESERVED_KEYWORDS.contains k2)).isEmpty with
    | false => rfl
    | true =>
      exfalso
      have hnil := List.isEmpty_iff.mp hcase
      have hall := List.filter_eq_nil_iff.mp hnil
      exact hall k hk1 (List.elem_iff.mpr hk2)
  have hmain : encryptSecretsMain secrets pubkey_bytes secrets_json = [Effect.exitWith 1] := by
    unfold encryptSecretsMain
    simp only [he, Bool.false_eq_true, if_false]
  refine ⟨hmain, ?_, ?_⟩
  · rw [hmain]
    simp
  · intro ct
    rw [hmain]
    simp

/-- C10 (witness): a secrets object using the reserved key
`NEAR_SENDER_ID` is rejected with exit status 1. -/
theorem c10_witness :
    "NEAR_SENDER_ID" ∈ ([("NEAR_SENDER_ID", "x")].map
      (Prod.fst : String × String → String)) ∧
    "NEAR_SENDER_ID" ∈ RESERVED_KEYWORDS ∧
    encryptSecretsMain [("NEAR_SENDER_ID", "x")] [] "{}" = [Effect.exitWith 1] :=
  ⟨by decide, by decide,
    (c10_reserved_keys_rejected [("NEAR_SENDER_ID", "x")] [] "{}"
      ⟨"NEAR_SENDER_ID", by decide, by decide⟩).1⟩

end NearOutlayer
